import Mathlib

/- Verification of the image-classification inference pipeline implemented in
src/projects/ai_image_classifier.py.

Modelling conventions.
* A numpy array is embedded as a `Tensor`: a row-major flat list of values
  together with its shape.  Machine floats are idealized as an arbitrary
  linear ordered field (instantiated at `ℝ` in the theorems); the float
  literal `0.1` of the source is the exact field element `1 / 10`, and
  `np.exp` is an explicit function argument, instantiated with `Real.exp`.
* `np.random.randn` weights are materialized by `CNNLayer.forward` but never
  read when producing the output (the transform only uses the trailing-axis
  sum and the zero bias), so the model omits the `weights` field and keeps
  the lazily materialized `bias`, threading the updated layer explicitly.
* Wall-clock timestamps (`datetime.now()`) are not part of the value model;
  `Prediction` carries the class name and confidence.
* numpy primitives (`np.resize`, `np.argmax`, `np.argsort`, `np.max`,
  `np.sum`, slicing) are embedded by their documented semantics: `np.argmax`
  scans left to right keeping the first strict maximum; `np.argsort` sorts
  indices ascending by value, stably (numpy sorts arrays of fewer than 16
  elements by insertion sort, which is stable; every vector sorted in the
  theorems below has at most `num_classes` entries), modelled by a stable
  insertion sort on indices; the Python slice `a[-k:]` keeps the whole list
  when `k = 0` and otherwise the last `min k len` elements. -/

set_option maxHeartbeats 1000000

/-- Row-major n-dimensional array: a shape and the flat list of entries. -/
structure Tensor (α : Type*) where
  shape : List ℕ
  data : List α

/-- A tensor is well formed when its flat data has exactly as many entries as
the shape demands. -/
def Tensor.wf {α : Type*} (t : Tensor α) : Prop :=
  t.data.length = t.shape.prod

instance {α : Type*} (t : Tensor α) : Decidable t.wf := by
  unfold Tensor.wf; infer_instance

/-- Entry of a tensor at flattened position `q` of the leading axes and
channel `c` of the trailing axis (row-major addressing). -/
def Tensor.entry {α : Type*} [LinearOrderedField α] (t : Tensor α) (q c : ℕ) : α :=
  t.data.getD (q * t.shape.getLastD 0 + c) 0

/-- ImagePreprocessor.normalize (src lines 22-25): elementwise division of
every sample by 255, with no clipping. -/
def ImagePreprocessor.normalize {α : Type*} [LinearOrderedField α] (t : Tensor α) : Tensor α :=
  ⟨t.shape, t.data.map (fun v => v / 255)⟩

/-- np.resize by its documented semantics: the result has exactly the
requested shape; its flat data cycles through the source data in row-major
order, or is all zeros when the source is empty. -/
def npResize {α : Type*} [LinearOrderedField α] (t : Tensor α) (newShape : List ℕ) : Tensor α :=
  ⟨newShape,
   (List.range newShape.prod).map
     (fun k => if t.data.length = 0 then 0 else t.data.getD (k % t.data.length) 0)⟩

/-- ImagePreprocessor.resize (src lines 27-31): resize to
`(th, tw, channels)` where the channel count is `shape[2]` when the input
has more than two axes and `1` otherwise. -/
def ImagePreprocessor.resize {α : Type*} [LinearOrderedField α] (t : Tensor α) (th tw : ℕ) : Tensor α :=
  npResize t [th, tw, if t.shape.length > 2 then t.shape.getD 2 1 else 1]

/-- ImagePreprocessor.preprocess (src lines 33-38): resize, then normalize. -/
def ImagePreprocessor.preprocess {α : Type*} [LinearOrderedField α] (t : Tensor α) (th tw : ℕ) : Tensor α :=
  ImagePreprocessor.normalize (ImagePreprocessor.resize t th tw)

/-- CNNLayer (src lines 40-48): hyperparameters plus the lazily materialized
bias vector (`none` until the first forward call). -/
structure CNNLayer (α : Type*) where
  filters : ℕ
  kernel_size : ℕ
  activation : String
  bias : Option (List α)

/-- Maximum of a row, as computed by np.max over the trailing axis at one
position (meaningful for nonempty rows; `0` as junk value on `[]`, where
numpy raises instead). -/
def rowMax {α : Type*} [LinearOrderedField α] : List α → α
  | [] => 0
  | [x] => x
  | x :: y :: t => max x (rowMax (y :: t))

/-- Softmax over one row, transcribed from src lines 66-67: subtract the
per-position maximum, exponentiate, normalize by the per-position sum. -/
def softmaxRow {α : Type*} [LinearOrderedField α] (e : α → α) (row : List α) : List α :=
  let exps := row.map (fun v => e (v - rowMax row))
  exps.map (fun x => x / exps.sum)

/-- Activation dispatch of CNNLayer.forward (src lines 63-67): `'relu'` is
elementwise `max 0`, `'softmax'` is `softmaxRow`, anything else is the
identity. -/
def applyAct {α : Type*} [LinearOrderedField α] (e : α → α) (activation : String)
    (row : List α) : List α :=
  if activation = "relu" then row.map (fun v => max 0 v)
  else if activation = "softmax" then softmaxRow e row
  else row

/-- The linear transform of src line 61 at one position: output channel `c`
is the trailing-axis sum of the input row, scaled by the fixed mixing
coefficient `0.1`, plus `bias[c]`. -/
def linearRow {α : Type*} [LinearOrderedField α] (filters : ℕ) (bias : List α)
    (row : List α) : List α :=
  (List.range filters).map (fun c => row.sum * (1 / 10) + bias.getD c 0)

/-- The input tensor viewed as its `nrows = prod shape[:-1]` trailing-axis
rows of length `last = shape[-1]`, in row-major order. -/
def rowsOf {α : Type*} (last nrows : ℕ) (data : List α) : List (List α) :=
  (List.range nrows).map (fun q => (data.drop (q * last)).take last)

/-- Bias as used by CNNLayer.forward: the stored vector if already
materialized, else the zero vector of length `filters` (src line 56). -/
def CNNLayer.matBias {α : Type*} [LinearOrderedField α] (L : CNNLayer α) : List α :=
  L.bias.getD (List.replicate L.filters 0)

/-- The pre-activation output of CNNLayer.forward (src lines 59-61): shape
`x.shape[:-1] ++ [filters]`, each row being the linear transform of the
corresponding input row. -/
def CNNLayer.preActivation {α : Type*} [LinearOrderedField α] (L : CNNLayer α)
    (x : Tensor α) : Tensor α :=
  ⟨x.shape.dropLast ++ [L.filters],
   ((rowsOf (x.shape.getLastD 1) x.shape.dropLast.prod x.data).map
     (fun r => linearRow L.filters L.matBias r)).flatten⟩

/-- CNNLayer.forward (src lines 50-69): materialize the bias if unset, apply
the linear transform rowwise, then the activation over the trailing axis.
Returns the updated layer together with the output tensor. -/
def CNNLayer.forward {α : Type*} [LinearOrderedField α] (L : CNNLayer α) (e : α → α)
    (x : Tensor α) : CNNLayer α × Tensor α :=
  ⟨⟨L.filters, L.kernel_size, L.activation, some L.matBias⟩,
   ⟨x.shape.dropLast ++ [L.filters],
    ((rowsOf (x.shape.getLastD 1) x.shape.dropLast.prod x.data).map
      (fun r => applyAct e L.activation (linearRow L.filters L.matBias r))).flatten⟩⟩

/-- The fixed class table of AIImageClassifier.__init__ (src lines 76-79). -/
def classesList : List String :=
  ["Airplane", "Automobile", "Bird", "Cat", "Deer",
   "Dog", "Frog", "Horse", "Ship", "Truck"]

/-- AIImageClassifier._build_model (src lines 84-91). -/
def build_model {α : Type*} (n : ℕ) : List (CNNLayer α) :=
  [⟨32, 3, "relu", none⟩, ⟨64, 3, "relu", none⟩,
   ⟨128, 3, "relu", none⟩, ⟨n, 1, "softmax", none⟩]

/-- The forward pass through the layer stack (src lines 99-101 / 125-127),
threading the per-layer bias materialization. -/
def runModel {α : Type*} [LinearOrderedField α] (e : α → α) :
    List (CNNLayer α) → Tensor α → List (CNNLayer α) × Tensor α
  | [], x => ⟨[], x⟩
  | L :: Ls, x =>
    let r := L.forward e x
    let rest := runModel e Ls r.2
    ⟨r.1 :: rest.1, rest.2⟩

/-- The class-probability vector computed identically in predict and
get_top_predictions (src lines 96-105 and 123-130): preprocess with the
default target size (224, 224), run the model, flatten (both branches of
`x.flatten() if x.ndim > 1 else x` yield the row-major data) and keep the
first `num_classes` entries. -/
def classProbVector {α : Type*} [LinearOrderedField α] (e : α → α) (n : ℕ)
    (img : Tensor α) : List α :=
  ((runModel e (build_model n) (ImagePreprocessor.preprocess img 224 224)).2).data.take n

/-- Scan of np.argmax: keep the first index whose value is a strict maximum
so far.  `best` is the current winner, `bestv` its value, `i` the index of
the head of the remaining list. -/
def argmaxGo {α : Type*} [LinearOrderedField α] : ℕ → α → ℕ → List α → ℕ
  | best, _, _, [] => best
  | best, bestv, i, y :: rest =>
    if bestv < y then argmaxGo i y (i + 1) rest else argmaxGo best bestv (i + 1) rest

/-- np.argmax by its documented semantics: the index of the first occurrence
of the maximum (junk value `0` on `[]`, where numpy raises). -/
def npArgmax {α : Type*} [LinearOrderedField α] : List α → ℕ
  | [] => 0
  | h :: t => argmaxGo 0 h 1 t

/-- Prediction record (src lines 12-17), minus the wall-clock timestamp. -/
structure Prediction (α : Type*) where
  class_name : String
  confidence : α
deriving DecidableEq

/-- AIImageClassifier.predict (src lines 93-115) for a classifier built with
`num_classes = n`: argmax over the class-probability vector, class name from
the table when the index is in range and the sentinel `"Unknown"`
otherwise, confidence the raw value at the chosen index. -/
def predict {α : Type*} [LinearOrderedField α] (e : α → α) (n : ℕ)
    (img : Tensor α) : Prediction α :=
  let v := classProbVector e n img
  let class_idx := npArgmax v
  ⟨if class_idx < classesList.length then classesList.getD class_idx "" else "Unknown",
   v.getD class_idx 0⟩

/-- Stable insertion of index `i` into an index list sorted ascending by the
values of `v`: `i` goes before the first index holding a strictly larger
value. -/
def insIdx {α : Type*} [LinearOrderedField α] (v : List α) (i : ℕ) :
    List ℕ → List ℕ
  | [] => [i]
  | j :: rest => if v.getD i 0 < v.getD j 0 then i :: j :: rest else j :: insIdx v i rest

/-- np.argsort by its documented semantics on the vectors arising here
(fewer than 16 entries, hence numpy's stable insertion sort): the indices of
`v` sorted ascending by value, ties kept in index order. -/
def npArgsort {α : Type*} [LinearOrderedField α] (v : List α) : List ℕ :=
  (List.range v.length).foldl (fun acc i => insIdx v i acc) []

/-- The Python slice `l[-k:]`: the whole list when `k = 0`, otherwise the
last `min k l.length` elements. -/
def lastSlice (k : ℕ) (l : List ℕ) : List ℕ :=
  if k = 0 then l else l.drop (l.length - k)

/-- The selected indices of src line 133: `np.argsort(v)[-k:][::-1]`. -/
def topIndices {α : Type*} [LinearOrderedField α] (v : List α) (k : ℕ) : List ℕ :=
  (lastSlice k (npArgsort v)).reverse

/-- AIImageClassifier.get_top_predictions (src lines 121-144): selected
indices mapped to Prediction records, silently skipping any index outside
the class table. -/
def get_top_predictions {α : Type*} [LinearOrderedField α] (e : α → α) (n : ℕ)
    (img : Tensor α) (top_k : ℕ) : List (Prediction α) :=
  let v := classProbVector e n img
  (topIndices v top_k).filterMap
    (fun idx =>
      if idx < classesList.length then some ⟨classesList.getD idx "", v.getD idx 0⟩
      else none)

/-- The aggregate report of AIImageClassifier.analyze_image (src lines
146-165), minus the wall-clock timestamp. -/
structure AnalysisReport (α : Type*) where
  primary_class : String
  primary_confidence : α
  all_predictions : List (String × α)
  num_classes : ℕ
  architecture : String
  layers : ℕ

/-- AIImageClassifier.analyze_image (src lines 146-165): package the top-3
predictions.  Python indexes `top_predictions[0]` directly (an IndexError
when the list is empty); the model totalizes that corner with a junk
default, which no theorem below relies on. -/
def analyze_image {α : Type*} [LinearOrderedField α] (e : α → α) (n : ℕ)
    (img : Tensor α) : AnalysisReport α :=
  let tp := get_top_predictions e n img 3
  ⟨(tp.getD 0 ⟨"", 0⟩).class_name, (tp.getD 0 ⟨"", 0⟩).confidence,
   tp.map (fun p => (p.class_name, p.confidence)),
   n, "CNN", (build_model (α := α) n).length⟩

/-- The least index of `v` attaining its maximum value, written from the
spec's description of argmax selection; used as the specification side of
the refinement claim about predict. -/
def specArgmax {α : Type*} [LinearOrderedField α] : List α → ℕ
  | [] => 0
  | [_] => 0
  | h :: m :: t =>
    if h < (m :: t).getD (specArgmax (m :: t)) 0 then specArgmax (m :: t) + 1 else 0

/-- The predict pipeline restated from the spec's words (spec section 4.4):
flatten the model output to a one-dimensional vector, take the first
`num_classes` entries, select the argmax index (first occurrence of the
maximum), resolve the class name with the `"Unknown"` sentinel for an
out-of-range index, and report the raw value at that index. -/
def predictSpec {α : Type*} [LinearOrderedField α] (e : α → α) (n : ℕ)
    (img : Tensor α) : Prediction α :=
  let flat := ((runModel e (build_model n) (ImagePreprocessor.preprocess img 224 224)).2).data
  let v := flat.take n
  let idx := specArgmax v
  ⟨if idx < classesList.length then classesList.getD idx "" else "Unknown",
   v.getD idx 0⟩

/-- Construction-time record of CNNLayer.__init__ (src lines 43-48): the
constructor stores its arguments unchanged (Python ints modelled as ℤ so
that non-positive arguments are expressible). -/
structure CNNLayerCfg where
  filters : ℤ
  kernel_size : ℤ
  activation : String
deriving DecidableEq

/-- CNNLayer.__init__ (src lines 43-48), transcribed: the body performs only
field assignments.  The `Except` channel is where the ConfigurationError
posited by the spec would surface; the code validates nothing and always
returns successfully. -/
def cnnLayerInit (filters kernel_size : ℤ) (activation : String) :
    Except String CNNLayerCfg :=
  .ok ⟨filters, kernel_size, activation⟩

/-- Construction-time record of AIImageClassifier.__init__ (src lines
74-82). -/
structure ClassifierCfg where
  num_classes : ℤ
  classes : List String
  model : List CNNLayerCfg
deriving DecidableEq

/-- AIImageClassifier.__init__ (src lines 74-82), transcribed: store
`num_classes`, the fixed class table and the four layer configurations of
_build_model.  No validation is performed and no forward pass runs (forward
is only reachable from predict/get_top_predictions). -/
def classifierInit (num_classes : ℤ) : Except String ClassifierCfg :=
  .ok ⟨num_classes, classesList,
       [⟨32, 3, "relu"⟩, ⟨64, 3, "relu"⟩, ⟨128, 3, "relu"⟩,
        ⟨num_classes, 1, "softmax"⟩]⟩


/-- Output of the first relu layer of the model on an image (intermediate of
the forward pass of src lines 99-101). -/
def stage1 {α : Type*} [LinearOrderedField α] (e : α → α) (img : Tensor α) : Tensor α :=
  ((⟨32, 3, "relu", none⟩ : CNNLayer α).forward e
    (ImagePreprocessor.preprocess img 224 224)).2

/-- Output of the second relu layer of the model on an image. -/
def stage2 {α : Type*} [LinearOrderedField α] (e : α → α) (img : Tensor α) : Tensor α :=
  ((⟨64, 3, "relu", none⟩ : CNNLayer α).forward e (stage1 e img)).2

/-- Output of the third relu layer of the model on an image. -/
def stage3 {α : Type*} [LinearOrderedField α] (e : α → α) (img : Tensor α) : Tensor α :=
  ((⟨128, 3, "relu", none⟩ : CNNLayer α).forward e (stage2 e img)).2

/-- A concrete 1x1x1 image used to instantiate universally quantified
theorems at a specific input. -/
def imgW : Tensor ℝ := ⟨[1, 1, 1], [200]⟩

/-- A concrete 2x2x3 image used by further instantiations. -/
def imgW2 : Tensor ℝ := ⟨[2, 2, 3], [0, 10, 20, 30, 40, 50, 60, 70, 80, 90, 100, 255]⟩

/-- A concrete layer with two output channels, used for instantiations. -/
def layerW : CNNLayer ℝ := ⟨2, 3, "relu", none⟩

/-- A concrete rank-2 tensor of shape [1, 2], used for instantiations. -/
def tensorW : Tensor ℝ := ⟨[1, 2], [5, 7]⟩

/-! Generic list helpers used throughout. -/

theorem getD_replicate_lt {α : Type*} (a d : α) : ∀ {i n : ℕ}, i < n →
    (List.replicate n a).getD i d = a := by
  intro i n
  induction n generalizing i with
  | zero => omega
  | succ k ih =>
    intro h
    cases i with
    | zero => rw [List.replicate_succ, List.getD_cons_zero]
    | succ j => rw [List.replicate_succ, List.getD_cons_succ]; exact ih (by omega)

theorem getD_replicate_self {α : Type*} (a : α) (n i : ℕ) :
    (List.replicate n a).getD i a = a := by
  rcases Nat.lt_or_ge i n with h | h
  · exact getD_replicate_lt a a h
  · exact List.getD_eq_default _ _ (by simpa using h)

theorem flatten_replicate_replicate {α : Type*} (k n : ℕ) (c : α) :
    (List.replicate k (List.replicate n c)).flatten = List.replicate (k * n) c := by
  induction k with
  | zero => simp
  | succ m ih =>
    rw [List.replicate_succ, List.flatten_cons, ih, ← List.replicate_add]
    rw [Nat.succ_mul, Nat.add_comm]

theorem getD_map_range {β : Type*} (f : ℕ → β) (d : β) {q n : ℕ} (h : q < n) :
    ((List.range n).map f).getD q d = f q := by
  rw [List.getD_eq_getElem?_getD, List.getElem?_map, List.getElem?_range h]
  rfl

theorem getD_map_lt {β γ : Type*} (f : β → γ) (l : List β) (d : γ) (d' : β) {i : ℕ}
    (h : i < l.length) : (l.map f).getD i d = f (l.getD i d') := by
  rw [List.getD_eq_getElem?_getD, List.getElem?_map, List.getElem?_eq_getElem h,
      List.getD_eq_getElem?_getD, List.getElem?_eq_getElem h]
  rfl

theorem getD_flatten_uniform {α : Type*} (d : α) :
    ∀ (rows : List (List α)) (m q c : ℕ), (∀ r ∈ rows, r.length = m) →
      q < rows.length → c < m →
      rows.flatten.getD (q * m + c) d = (rows.getD q []).getD c d := by
  intro rows
  induction rows with
  | nil => intro m q c _ hq _; simp at hq
  | cons r rest ih =>
    intro m q c hlen hq hc
    have hr : r.length = m := hlen r (by simp)
    cases q with
    | zero =>
      rw [List.flatten_cons, List.getD_cons_zero, List.getD_eq_getElem?_getD,
          List.getElem?_append, if_pos (by omega)]
      rw [List.getD_eq_getElem?_getD]
      norm_num
    | succ q' =>
      rw [List.flatten_cons, List.getD_eq_getElem?_getD,
          List.getElem?_append_right (by rw [hr]; nlinarith), List.getD_cons_succ]
      rw [show (q' + 1) * m + c - r.length = q' * m + c by rw [hr]; ring_nf; omega]
      rw [← List.getD_eq_getElem?_getD]
      exact ih m q' c (fun x hx => hlen x (by simp [hx])) (by simpa using hq) hc

theorem length_filterMap_if {β : Type*} (l : List ℕ) (g : ℕ → β) (m : ℕ) :
    (l.filterMap (fun i => if i < m then some (g i) else none)).length
      = l.countP (fun i => decide (i < m)) := by
  induction l with
  | nil => rfl
  | cons a t ih =>
    by_cases h : a < m
    · simp only [List.filterMap_cons, if_pos h, List.countP_cons, ih]
      simp [h]
      omega
    · simp only [List.filterMap_cons, if_neg h, List.countP_cons, ih]
      simp [h]

theorem getD_mem_of_lt {β : Type*} (l : List β) (d : β) {i : ℕ} (h : i < l.length) :
    l.getD i d ∈ l := by
  rw [List.getD_eq_getElem?_getD, List.getElem?_eq_getElem h]
  exact List.getElem_mem h

theorem drop_range_eq (n m : ℕ) (h : m ≤ n) :
    (List.range n).drop m = List.range' m (n - m) := by
  have hsplit : List.range' 0 m ++ List.range' m (n - m) = List.range' 0 n := by
    have h2 := List.range'_append 0 m (n - m) 1
    rw [show 0 + 1 * m = m by omega] at h2
    rw [show n - m + m = n by omega] at h2
    exact h2
  rw [List.range_eq_range', ← hsplit]
  calc (List.range' 0 m ++ List.range' m (n - m)).drop m
      = (List.range' 0 m ++ List.range' m (n - m)).drop (List.range' 0 m).length := by
        rw [List.length_range']
    _ = List.range' m (n - m) := List.drop_left _ _

/-! Behaviour of one layer: with the zero bias every output channel of a
position carries the same value, so softmax over the trailing axis yields
the uniform vector. -/

theorem rowMax_replicate_succ {α : Type*} [LinearOrderedField α] (c : α) (n : ℕ) :
    rowMax (List.replicate (n + 1) c) = c := by
  induction n with
  | zero => rfl
  | succ k ih =>
    rw [List.replicate_succ, List.replicate_succ]
    rw [show rowMax (c :: c :: List.replicate k c) = max c (rowMax (c :: List.replicate k c))
        from rfl]
    rw [← List.replicate_succ, ih, max_self]

theorem softmaxRow_replicate (n : ℕ) (c : ℝ) :
    softmaxRow Real.exp (List.replicate n c) = List.replicate n ((n : ℝ)⁻¹) := by
  cases n with
  | zero => rfl
  | succ k =>
    unfold softmaxRow
    rw [rowMax_replicate_succ, List.map_replicate, sub_self, Real.exp_zero]
    show List.map (fun x => x / (List.replicate (k + 1) (1:ℝ)).sum)
        (List.replicate (k + 1) (1:ℝ)) = _
    rw [List.sum_replicate, nsmul_eq_mul, mul_one, List.map_replicate, one_div]

theorem applyAct_relu {α : Type*} [LinearOrderedField α] (e : α → α) (row : List α) :
    applyAct e "relu" row = row.map (fun v => max 0 v) := by
  unfold applyAct
  rw [if_pos rfl]

theorem applyAct_softmax {α : Type*} [LinearOrderedField α] (e : α → α) (row : List α) :
    applyAct e "softmax" row = softmaxRow e row := by
  unfold applyAct
  rw [if_neg (by decide), if_pos rfl]

theorem linearRow_zero_bias {α : Type*} [LinearOrderedField α] (f : ℕ) (row : List α) :
    linearRow f (List.replicate f 0) row = List.replicate f (row.sum * (1 / 10)) := by
  unfold linearRow
  rw [List.map_congr_left
      (fun c _ => by rw [getD_replicate_self, add_zero] :
        ∀ c ∈ List.range f, row.sum * (1 / 10) + (List.replicate f (0:α)).getD c 0
          = row.sum * (1 / 10))]
  rw [List.map_const', List.length_range]

theorem softmax_layer_data (n : ℕ) (x : Tensor ℝ) :
    (((⟨n, 1, "softmax", none⟩ : CNNLayer ℝ).forward Real.exp x).2).data
      = List.replicate (x.shape.dropLast.prod * n) ((n : ℝ)⁻¹) := by
  show ((rowsOf (x.shape.getLastD 1) x.shape.dropLast.prod x.data).map
      (fun r => applyAct Real.exp "softmax"
        (linearRow n (CNNLayer.matBias ⟨n, 1, "softmax", none⟩) r))).flatten = _
  have hrows : ∀ r ∈ rowsOf (x.shape.getLastD 1) x.shape.dropLast.prod x.data,
      applyAct Real.exp "softmax"
          (linearRow n (CNNLayer.matBias ⟨n, 1, "softmax", none⟩) r)
        = List.replicate n ((n : ℝ)⁻¹) := by
    intro r _
    rw [show CNNLayer.matBias (⟨n, 1, "softmax", none⟩ : CNNLayer ℝ)
        = List.replicate n 0 from rfl]
    rw [linearRow_zero_bias, applyAct_softmax, softmaxRow_replicate]
  rw [List.map_congr_left hrows]
  rw [List.map_const']
  rw [show (rowsOf (x.shape.getLastD 1) x.shape.dropLast.prod x.data).length
      = x.shape.dropLast.prod by unfold rowsOf; rw [List.length_map, List.length_range]]
  exact flatten_replicate_replicate _ _ _


/-- The heart of the pipeline's value behaviour: because the bias is zero
and the linear transform gives every output channel of a position the same
value, the final softmax output is uniform, so the class-probability vector
of any input image is `n` copies of `1/n`. -/
theorem classProbVector_uniform (n : ℕ) (img : Tensor ℝ) :
    classProbVector Real.exp n img = List.replicate n ((n : ℝ)⁻¹) := by
  have hstep : (runModel Real.exp (build_model n) (ImagePreprocessor.preprocess img 224 224)).2
      = ((⟨n, 1, "softmax", none⟩ : CNNLayer ℝ).forward Real.exp (stage3 Real.exp img)).2 := rfl
  have hprod : (stage3 Real.exp img).shape.dropLast.prod = 50176 := rfl
  unfold classProbVector
  rw [hstep, softmax_layer_data, hprod, List.take_replicate]
  congr 1
  exact inf_eq_left.mpr (Nat.le_mul_of_pos_left n (by norm_num))

/-! Correctness of the argmax scan and of the stable argsort on constant
vectors. -/

theorem argmaxGo_keep {α : Type*} [LinearOrderedField α] (bestv : α) :
    ∀ (rest : List α) (best i : ℕ), (∀ y ∈ rest, ¬ bestv < y) →
      argmaxGo best bestv i rest = best := by
  intro rest
  induction rest with
  | nil => intro best i _; rfl
  | cons y t ih =>
    intro best i h
    unfold argmaxGo
    rw [if_neg (h y (by simp))]
    exact ih best (i + 1) (fun z hz => h z (by simp [hz]))

theorem npArgmax_replicate {α : Type*} [LinearOrderedField α] (n : ℕ) (c : α) :
    npArgmax (List.replicate (n + 1) c) = 0 := by
  rw [List.replicate_succ]
  unfold npArgmax
  exact argmaxGo_keep c _ 0 1 (fun y hy => by
    rw [List.eq_of_mem_replicate hy]; exact lt_irrefl c)

theorem argmaxGo_spec {α : Type*} [LinearOrderedField α] (v : List α) :
    ∀ (rest : List α) (best i : ℕ),
      i + rest.length = v.length → v.drop i = rest → best < i →
      (∀ j, j < i → v.getD j 0 ≤ v.getD best 0) →
      (∀ j, j < best → v.getD j 0 < v.getD best 0) →
      argmaxGo best (v.getD best 0) i rest < v.length ∧
        (∀ j, j < v.length → v.getD j 0 ≤ v.getD (argmaxGo best (v.getD best 0) i rest) 0) ∧
        (∀ j, j < argmaxGo best (v.getD best 0) i rest →
          v.getD j 0 < v.getD (argmaxGo best (v.getD best 0) i rest) 0) := by
  intro rest
  induction rest with
  | nil =>
    intro best i hlen _ hbi hle hlt
    simp only [List.length_nil, Nat.add_zero] at hlen
    subst hlen
    refine ⟨by simp only [argmaxGo]; omega, ?_, ?_⟩
    · intro j hj; simp only [argmaxGo]; exact hle j hj
    · intro j hj; simp only [argmaxGo] at hj ⊢; exact hlt j hj
  | cons y t ih =>
    intro best i hlen hdrop hbi hle hlt
    have hyi : v.getD i 0 = y := by
      have h0 : (v.drop i)[0]? = v[i + 0]? := List.getElem?_drop v i 0
      rw [List.getD_eq_getElem?_getD, show v[i]? = v[i + 0]? by rw [Nat.add_zero],
          ← h0, hdrop]
      simp
    have hdrop1 : v.drop (i + 1) = t := by
      have : List.drop 1 (List.drop i v) = List.drop (i + 1) v := by
        rw [List.drop_drop]
      rw [← this, hdrop]
      rfl
    unfold argmaxGo
    by_cases hc : v.getD best 0 < y
    · rw [if_pos hc]
      rw [show y = v.getD i 0 from hyi.symm]
      exact ih i (i + 1) (by simp at hlen ⊢; omega) hdrop1 (by omega)
        (fun j hj => by
          rcases Nat.lt_or_ge j i with h | h
          · exact le_trans (hle j h) (le_of_lt (hyi ▸ hc))
          · rw [show j = i by omega])
        (fun j hj => lt_of_le_of_lt (hle j hj) (hyi ▸ hc))
    · rw [if_neg hc]
      exact ih best (i + 1) (by simp at hlen ⊢; omega) hdrop1 (by omega)
        (fun j hj => by
          rcases Nat.lt_or_ge j i with h | h
          · exact hle j h
          · rw [show j = i by omega, hyi]; exact le_of_not_lt hc)
        hlt

theorem npArgmax_spec {α : Type*} [LinearOrderedField α] (v : List α) (hv : v ≠ []) :
    npArgmax v < v.length ∧
      (∀ j, j < v.length → v.getD j 0 ≤ v.getD (npArgmax v) 0) ∧
      (∀ j, j < npArgmax v → v.getD j 0 < v.getD (npArgmax v) 0) := by
  cases v with
  | nil => exact absurd rfl hv
  | cons h t =>
    have hspec := argmaxGo_spec (h :: t) t 0 1 (by simp; omega) (by simp) (by omega)
      (fun j hj => by rw [show j = 0 by omega]) (fun j hj => by omega)
    rw [show (h :: t).getD 0 0 = h from rfl] at hspec
    exact hspec

theorem specArgmax_spec {α : Type*} [LinearOrderedField α] :
    ∀ (v : List α), v ≠ [] →
      specArgmax v < v.length ∧
        (∀ j, j < v.length → v.getD j 0 ≤ v.getD (specArgmax v) 0) ∧
        (∀ j, j < specArgmax v → v.getD j 0 < v.getD (specArgmax v) 0)
  | [], h => absurd rfl h
  | [x], _ => by
    refine ⟨by simp [specArgmax], ?_, ?_⟩
    · intro j hj
      rw [show j = 0 by simpa using hj]
      simp [specArgmax]
    · intro j hj
      simp [specArgmax] at hj
  | h :: m :: t, _ => by
    obtain ⟨ih1, ih2, ih3⟩ := specArgmax_spec (m :: t) (by simp)
    simp only [specArgmax]
    by_cases hc : h < (m :: t).getD (specArgmax (m :: t)) 0
    · rw [if_pos hc]
      refine ⟨?_, ?_, ?_⟩
      · simp only [List.length_cons] at ih1 ⊢; omega
      · intro j hj
        rw [List.getD_cons_succ]
        cases j with
        | zero => rw [List.getD_cons_zero]; exact le_of_lt hc
        | succ j' =>
          rw [List.getD_cons_succ]
          exact ih2 j' (by simpa using hj)
      · intro j hj
        rw [List.getD_cons_succ]
        cases j with
        | zero => rw [List.getD_cons_zero]; exact hc
        | succ j' =>
          rw [List.getD_cons_succ]
          exact ih3 j' (by omega)
    · rw [if_neg hc]
      refine ⟨by simp, ?_, ?_⟩
      · intro j hj
        rw [List.getD_cons_zero]
        cases j with
        | zero => rw [List.getD_cons_zero]
        | succ j' =>
          rw [List.getD_cons_succ]
          exact le_trans (ih2 j' (by simpa using hj)) (le_of_not_lt hc)
      · intro j hj
        omega

theorem npArgmax_eq_specArgmax {α : Type*} [LinearOrderedField α] (v : List α)
    (hv : v ≠ []) : npArgmax v = specArgmax v := by
  obtain ⟨h1, h2, h3⟩ := npArgmax_spec v hv
  obtain ⟨g1, g2, g3⟩ := specArgmax_spec v hv
  rcases Nat.lt_trichotomy (npArgmax v) (specArgmax v) with h | h | h
  · exact absurd (lt_of_lt_of_le (g3 _ h) (h2 _ g1)) (lt_irrefl _)
  · exact h
  · exact absurd (lt_of_lt_of_le (h3 _ h) (g2 _ h1)) (lt_irrefl _)

theorem insIdx_append_of_not_lt {α : Type*} [LinearOrderedField α] (v : List α) (i : ℕ) :
    ∀ js : List ℕ, (∀ j ∈ js, ¬ v.getD i 0 < v.getD j 0) → insIdx v i js = js ++ [i]
  | [], _ => rfl
  | j :: rest, h => by
    unfold insIdx
    rw [if_neg (h j (by simp))]
    rw [insIdx_append_of_not_lt v i rest (fun x hx => h x (by simp [hx]))]
    rfl

theorem npArgsort_replicate {α : Type*} [LinearOrderedField α] (n : ℕ) (c : α) :
    npArgsort (List.replicate n c) = List.range n := by
  unfold npArgsort
  rw [List.length_replicate]
  have key : ∀ l acc : List ℕ, (∀ i ∈ l, i < n) → (∀ j ∈ acc, j < n) →
      l.foldl (fun acc i => insIdx (List.replicate n c) i acc) acc = acc ++ l := by
    intro l
    induction l with
    | nil => intro acc _ _; simp
    | cons i t ih =>
      intro acc hl hacc
      rw [List.foldl_cons]
      rw [show insIdx (List.replicate n c) i acc = acc ++ [i] from
        insIdx_append_of_not_lt (List.replicate n c) i acc (fun j hj => by
          rw [getD_replicate_lt c 0 (hl i (by simp)), getD_replicate_lt c 0 (hacc j hj)]
          exact lt_irrefl c)]
      rw [ih (acc ++ [i]) (fun x hx => hl x (by simp [hx])) (fun j hj => by
        rcases List.mem_append.mp hj with hj | hj
        · exact hacc j hj
        · rw [List.mem_singleton.mp hj]; exact hl i (by simp))]
      simp
  rw [key (List.range n) [] (fun i hi => List.mem_range.mp hi) (by simp)]
  simp

theorem topIndices_replicate_length {α : Type*} [LinearOrderedField α] (n k : ℕ) (c : α)
    (hk : 1 ≤ k) (hkn : k ≤ n) :
    (topIndices (List.replicate n c) k).length = k := by
  unfold topIndices lastSlice
  rw [npArgsort_replicate, if_neg (by omega : ¬ (k = 0)), List.length_reverse,
      List.length_drop, List.length_range]
  omega

theorem mem_topIndices_replicate {α : Type*} [LinearOrderedField α] {n k i : ℕ} (c : α)
    (h : i ∈ topIndices (List.replicate n c) k) : i < n := by
  unfold topIndices lastSlice at h
  rw [npArgsort_replicate, List.mem_reverse] at h
  by_cases hk : k = 0
  · rw [if_pos hk] at h; exact List.mem_range.mp h
  · rw [if_neg hk] at h; exact List.mem_range.mp (List.mem_of_mem_drop h)

theorem topIndices_replicate_three {α : Type*} [LinearOrderedField α] (n : ℕ) (c : α)
    (h3 : 3 ≤ n) :
    topIndices (List.replicate n c) 3 = [n - 1, n - 2, n - 3] := by
  unfold topIndices lastSlice
  rw [npArgsort_replicate, if_neg (by omega : ¬ (3 = 0)), List.length_range,
      drop_range_eq n (n - 3) (by omega), show n - (n - 3) = 3 by omega]
  rw [show List.range' (n - 3) 3 = [n - 3, n - 3 + 1, n - 3 + 1 + 1] from rfl]
  rw [show n - 3 + 1 = n - 2 by omega, show n - 2 + 1 = n - 1 by omega]
  rfl

/-! Softmax analytic facts. -/

theorem softmaxRow_sum_one (v : List ℝ) (hv : v ≠ []) :
    (softmaxRow Real.exp v).sum = 1 := by
  have hpos : ∀ x ∈ v.map (fun w => Real.exp (w - rowMax v)), 0 < x := by
    intro x hx
    obtain ⟨w, _, rfl⟩ := List.mem_map.mp hx
    exact Real.exp_pos _
  have hne : v.map (fun w => Real.exp (w - rowMax v)) ≠ [] := by
    simpa using hv
  have hS : 0 < (v.map (fun w => Real.exp (w - rowMax v))).sum :=
    List.sum_pos _ hpos hne
  show ((v.map (fun w => Real.exp (w - rowMax v))).map
      (fun x => x / (v.map (fun w => Real.exp (w - rowMax v))).sum)).sum = 1
  rw [show (fun x => x / (v.map (fun w => Real.exp (w - rowMax v))).sum)
      = (fun x => x * ((v.map (fun w => Real.exp (w - rowMax v))).sum)⁻¹) by
    funext x; rw [div_eq_mul_inv]]
  rw [show (fun x : ℝ => x * ((v.map (fun w => Real.exp (w - rowMax v))).sum)⁻¹)
      = (fun x : ℝ => id x * ((v.map (fun w => Real.exp (w - rowMax v))).sum)⁻¹) from rfl]
  rw [List.sum_map_mul_right, List.map_id]
  exact mul_inv_cancel₀ (ne_of_gt hS)

theorem softmaxRow_mem_bounds (v : List ℝ) :
    ∀ y ∈ softmaxRow Real.exp v, 0 ≤ y ∧ y ≤ 1 := by
  intro y hy
  have hy2 : y ∈ (v.map (fun w => Real.exp (w - rowMax v))).map
      (fun x => x / (v.map (fun w => Real.exp (w - rowMax v))).sum) := hy
  obtain ⟨x, hx, rfl⟩ := List.mem_map.mp hy2
  have hxpos : 0 < x := by
    obtain ⟨w, _, rfl⟩ := List.mem_map.mp hx
    exact Real.exp_pos _
  have hnonneg : ∀ z ∈ v.map (fun w => Real.exp (w - rowMax v)), 0 ≤ z := by
    intro z hz
    obtain ⟨w, _, rfl⟩ := List.mem_map.mp hz
    exact le_of_lt (Real.exp_pos _)
  have hS : 0 < (v.map (fun w => Real.exp (w - rowMax v))).sum :=
    List.sum_pos _ (fun z hz => by
      obtain ⟨w, _, rfl⟩ := List.mem_map.mp hz
      exact Real.exp_pos _) (by
        intro hnil
        rw [hnil] at hx
        exact absurd hx (List.not_mem_nil x))
  constructor
  · exact div_nonneg (le_of_lt hxpos) (le_of_lt hS)
  · exact (div_le_one hS).mpr (List.single_le_sum hnonneg x hx)

/-- Field access of predict: the class name follows the argmax index with the
`"Unknown"` sentinel for out-of-range indices. -/
theorem predict_class_name {α : Type*} [LinearOrderedField α] (e : α → α) (n : ℕ)
    (img : Tensor α) :
    (predict e n img).class_name
      = if npArgmax (classProbVector e n img) < classesList.length
        then classesList.getD (npArgmax (classProbVector e n img)) ""
        else "Unknown" := rfl

/-- Field access of predict: the confidence is the raw vector value at the
argmax index. -/
theorem predict_confidence {α : Type*} [LinearOrderedField α] (e : α → α) (n : ℕ)
    (img : Tensor α) :
    (predict e n img).confidence
      = (classProbVector e n img).getD (npArgmax (classProbVector e n img)) 0 := rfl

/-- C6: the softmax activation applied by a layer over the trailing axis
equals the numerically stable softmax of src lines 66-67, its values sum to
exactly 1 (hence within the 1e-6 tolerance) and every value lies in [0, 1]. -/
theorem C6_softmax_invariant (v : List ℝ) (hv : v ≠ []) :
    applyAct Real.exp "softmax" v = softmaxRow Real.exp v ∧
    (softmaxRow Real.exp v).sum = 1 ∧
    |(softmaxRow Real.exp v).sum - 1| ≤ 1 / 1000000 ∧
    ∀ y ∈ softmaxRow Real.exp v, 0 ≤ y ∧ y ≤ 1 := by
  refine ⟨applyAct_softmax _ _, softmaxRow_sum_one v hv, ?_, softmaxRow_mem_bounds v⟩
  rw [softmaxRow_sum_one v hv]
  norm_num

theorem C6_softmax_invariant_witness :
    ([(0 : ℝ), 1] ≠ []) ∧ (softmaxRow Real.exp [(0 : ℝ), 1]).sum = 1 :=
  ⟨by simp, (C6_softmax_invariant [(0 : ℝ), 1] (by simp)).2.1⟩

/-- C7: preprocess returns exactly the target spatial shape with the input's
channel count (1 when the input has no channel axis), and resizes before
normalizing. -/
theorem C7_preprocess_shape (t : Tensor ℝ) (th tw : ℕ) :
    (∀ H W C, t.shape = [H, W, C] →
      (ImagePreprocessor.preprocess t th tw).shape = [th, tw, C]) ∧
    (∀ H W, t.shape = [H, W] →
      (ImagePreprocessor.preprocess t th tw).shape = [th, tw, 1]) ∧
    ImagePreprocessor.preprocess t th tw
      = ImagePreprocessor.normalize (ImagePreprocessor.resize t th tw) := by
  refine ⟨?_, ?_, rfl⟩
  · intro H W C h
    show [th, tw, if t.shape.length > 2 then t.shape.getD 2 1 else 1] = [th, tw, C]
    rw [h]
    simp
  · intro H W h
    show [th, tw, if t.shape.length > 2 then t.shape.getD 2 1 else 1] = [th, tw, 1]
    rw [h]
    simp

theorem C7_preprocess_shape_witness :
    imgW2.shape = [2, 2, 3]
      ∧ (ImagePreprocessor.preprocess imgW2 224 224).shape = [224, 224, 3] :=
  ⟨rfl, (C7_preprocess_shape imgW2 224 224).1 2 2 3 rfl⟩

/-- C8: normalize divides every element by 255 with no clipping; inputs in
[0, 255] land in [0, 1], 0 maps to 0 and 255 maps to 1, and out-of-range
values simply scale. -/
theorem C8_normalize_scaling (t : Tensor ℝ) :
    (ImagePreprocessor.normalize t).shape = t.shape ∧
    (ImagePreprocessor.normalize t).data = t.data.map (fun v => v / 255) ∧
    (∀ i : ℕ, (ImagePreprocessor.normalize t).data.getD i 0 = t.data.getD i 0 / 255) ∧
    (∀ i : ℕ, 0 ≤ t.data.getD i 0 → t.data.getD i 0 ≤ 255 →
      0 ≤ (ImagePreprocessor.normalize t).data.getD i 0 ∧
        (ImagePreprocessor.normalize t).data.getD i 0 ≤ 1) ∧
    (ImagePreprocessor.normalize (⟨[1], [0]⟩ : Tensor ℝ)).data = [0] ∧
    (ImagePreprocessor.normalize (⟨[1], [255]⟩ : Tensor ℝ)).data = [1] := by
  have hpt : ∀ i : ℕ, (ImagePreprocessor.normalize t).data.getD i 0
      = t.data.getD i 0 / 255 := by
    intro i
    rcases Nat.lt_or_ge i t.data.length with h | h
    · exact getD_map_lt (fun v => v / 255) t.data 0 0 h
    · show (t.data.map (fun v => v / 255)).getD i 0 = t.data.getD i 0 / 255
      rw [List.getD_eq_default _ _ (by simpa using h), List.getD_eq_default _ _ h]
      norm_num
  refine ⟨rfl, rfl, hpt, ?_, ?_, ?_⟩
  · intro i h0 h255
    rw [hpt i]
    constructor
    · exact div_nonneg h0 (by norm_num)
    · rw [div_le_one (by norm_num : (0:ℝ) < 255)]
      exact h255
  · show ([(0:ℝ)].map (fun v => v / 255)) = [0]
    norm_num
  · show ([(255:ℝ)].map (fun v => v / 255)) = [1]
    norm_num

theorem C8_normalize_scaling_witness :
    ((0 : ℝ) ≤ tensorW.data.getD 0 0) ∧ (tensorW.data.getD 0 0 ≤ 255) ∧
    (0 ≤ (ImagePreprocessor.normalize tensorW).data.getD 0 0 ∧
      (ImagePreprocessor.normalize tensorW).data.getD 0 0 ≤ 1) :=
  ⟨by norm_num [tensorW], by norm_num [tensorW],
   (C8_normalize_scaling tensorW).2.2.2.1 0 (by norm_num [tensorW])
     (by norm_num [tensorW])⟩

/-- C3 counterexample: the claim says construction with non-positive
`output_channels` or `num_classes` raises a configuration error, but both
constructors succeed on such inputs (the code validates nothing). -/
theorem C3_cex_no_validation :
    cnnLayerInit 0 3 "relu" = Except.ok ⟨0, 3, "relu"⟩ ∧
    classifierInit (-1) = Except.ok ⟨-1, classesList,
      [⟨32, 3, "relu"⟩, ⟨64, 3, "relu"⟩, ⟨128, 3, "relu"⟩, ⟨-1, 1, "softmax"⟩]⟩ :=
  ⟨rfl, rfl⟩

/-- C3 amended: construction performs no validation at all; for every
argument (including non-positive channel and class counts) both
constructors return successfully, merely storing their arguments, and no
forward pass is involved. -/
theorem C3_construction_never_fails (filters kernel_size : ℤ) (activation : String)
    (num_classes : ℤ) :
    cnnLayerInit filters kernel_size activation
      = Except.ok ⟨filters, kernel_size, activation⟩ ∧
    classifierInit num_classes = Except.ok ⟨num_classes, classesList,
      [⟨32, 3, "relu"⟩, ⟨64, 3, "relu"⟩, ⟨128, 3, "relu"⟩,
       ⟨num_classes, 1, "softmax"⟩]⟩ :=
  ⟨rfl, rfl⟩

/-- C9: on every input image with `num_classes = n ≥ 1` the class-probability
vector is uniform (so the softmax tie is resolved to index 0) and predict
returns class `"Airplane"` with confidence exactly `1/n`. -/
theorem C9_predict_uniform (img : Tensor ℝ) (n : ℕ) (hn : 1 ≤ n) :
    classProbVector Real.exp n img = List.replicate n ((n : ℝ)⁻¹) ∧
    npArgmax (classProbVector Real.exp n img) = 0 ∧
    predict Real.exp n img = ⟨"Airplane", (n : ℝ)⁻¹⟩ := by
  obtain ⟨m, rfl⟩ : ∃ m, n = m + 1 := ⟨n - 1, by omega⟩
  have hu := classProbVector_uniform (m + 1) img
  have hargmax : npArgmax (classProbVector Real.exp (m + 1) img) = 0 := by
    rw [hu]; exact npArgmax_replicate m _
  refine ⟨hu, hargmax, ?_⟩
  have hname := predict_class_name Real.exp (m + 1) img
  have hconf := predict_confidence Real.exp (m + 1) img
  rw [hargmax, if_pos (by decide : (0:ℕ) < classesList.length)] at hname
  rw [hargmax, hu, List.replicate_succ, List.getD_cons_zero] at hconf
  cases hp : predict Real.exp (m + 1) img
  rw [hp] at hname hconf
  simp only at hname hconf
  rw [hname, hconf]
  rfl

theorem C9_predict_uniform_witness :
    (1 ≤ 2) ∧ predict Real.exp 2 imgW = ⟨"Airplane", ((2 : ℕ) : ℝ)⁻¹⟩ :=
  ⟨by omega, (C9_predict_uniform imgW 2 (by omega)).2.2⟩

/-- C10: whenever `1 ≤ num_classes ≤ 10`, the argmax index lies inside the
truncated vector, hence inside the 10-entry class table: predict returns one
of the ten fixed labels and the `"Unknown"` sentinel branch is unreachable. -/
theorem C10_unknown_unreachable (img : Tensor ℝ) (n : ℕ) (h1 : 1 ≤ n) (h10 : n ≤ 10) :
    classesList.length = 10 ∧
    (classProbVector Real.exp n img).length = n ∧
    npArgmax (classProbVector Real.exp n img) < (classProbVector Real.exp n img).length ∧
    (predict Real.exp n img).class_name ∈ classesList ∧
    (predict Real.exp n img).class_name ≠ "Unknown" := by
  have hu := classProbVector_uniform n img
  have hlen : (classProbVector Real.exp n img).length = n := by
    rw [hu, List.length_replicate]
  have hne : classProbVector Real.exp n img ≠ [] := by
    intro h
    rw [h] at hlen
    simp at hlen
    omega
  have hidx := (npArgmax_spec _ hne).1
  have hlt : npArgmax (classProbVector Real.exp n img) < classesList.length := by
    rw [show classesList.length = 10 from rfl]
    rw [hlen] at hidx
    omega
  have hname := predict_class_name Real.exp n img
  rw [if_pos hlt] at hname
  refine ⟨rfl, hlen, hidx, ?_, ?_⟩
  · rw [hname]
    exact getD_mem_of_lt classesList "" hlt
  · rw [hname]
    have hall : ∀ s ∈ classesList, s ≠ "Unknown" := by decide
    exact hall _ (getD_mem_of_lt classesList "" hlt)

theorem C10_unknown_unreachable_witness :
    (1 ≤ 3) ∧ (3 ≤ 10) ∧ (predict Real.exp 3 imgW2).class_name ∈ classesList :=
  ⟨by omega, by omega,
   (C10_unknown_unreachable imgW2 3 (by omega) (by omega)).2.2.2.1⟩

/-- C5: predict refines its specification: flatten the model output, keep the
first `num_classes` entries, pick the first index attaining the maximum
(`specArgmax`, the least argmax index), resolve the class name against the
table with the `"Unknown"` sentinel, and report the raw value there. -/
theorem C5_predict_refines_spec (n : ℕ) (img : Tensor ℝ) (hn : 1 ≤ n) :
    predict Real.exp n img = predictSpec Real.exp n img := by
  have hne : classProbVector Real.exp n img ≠ [] := by
    rw [classProbVector_uniform]
    intro h
    have hl := congrArg List.length h
    simp at hl
    omega
  have heq := npArgmax_eq_specArgmax _ hne
  have hv : ((runModel Real.exp (build_model n)
      (ImagePreprocessor.preprocess img 224 224)).2).data.take n
      = classProbVector Real.exp n img := rfl
  simp only [predict, predictSpec]
  rw [hv, heq]

theorem C5_predict_refines_spec_witness :
    (1 ≤ 3) ∧ predict Real.exp 3 imgW2 = predictSpec Real.exp 3 imgW2 :=
  ⟨by omega, C5_predict_refines_spec 3 imgW2 (by omega)⟩

/-- C4: on an input of shape `dims ++ [cin]` the layer's forward output has
shape `dims ++ [output_channels]`, and before activation the value at every
position `q` and output channel `c` is the trailing-axis sum of the input
row scaled by the fixed mixing coefficient 0.1, plus `bias[c]`. -/
theorem C4_layer_forward_linear (L : CNNLayer ℝ) (x : Tensor ℝ) (dims : List ℕ)
    (cin : ℕ) (hshape : x.shape = dims ++ [cin]) (hwf : x.wf)
    (hbias : ∀ b ∈ L.bias, b.length = L.filters) :
    ((L.forward Real.exp x).2).shape = dims ++ [L.filters] ∧
    (L.preActivation x).shape = dims ++ [L.filters] ∧
    (∀ q c, q < dims.prod → c < L.filters →
      (L.preActivation x).entry q c
        = ((x.data.drop (q * cin)).take cin).sum * (1 / 10) + L.matBias.getD c 0) := by
  have hdrop : x.shape.dropLast = dims := by rw [hshape]; exact List.dropLast_concat
  have hlast : x.shape.getLastD 1 = cin := by rw [hshape]; exact List.getLastD_concat 1 _ _
  refine ⟨?_, ?_, ?_⟩
  · show x.shape.dropLast ++ [L.filters] = dims ++ [L.filters]
    rw [hdrop]
  · show x.shape.dropLast ++ [L.filters] = dims ++ [L.filters]
    rw [hdrop]
  · intro q c hq hc
    have hgl : (L.preActivation x).shape.getLastD 0 = L.filters := by
      show (x.shape.dropLast ++ [L.filters]).getLastD 0 = L.filters
      exact List.getLastD_concat 0 _ _
    have hdata : (L.preActivation x).data
        = ((rowsOf cin dims.prod x.data).map
            (fun r => linearRow L.filters L.matBias r)).flatten := by
      show ((rowsOf (x.shape.getLastD 1) x.shape.dropLast.prod x.data).map
          (fun r => linearRow L.filters L.matBias r)).flatten = _
      rw [hlast, hdrop]
    have hrowlen : ∀ r ∈ (rowsOf cin dims.prod x.data).map
        (fun r => linearRow L.filters L.matBias r), r.length = L.filters := by
      intro r hr
      obtain ⟨r0, _, rfl⟩ := List.mem_map.mp hr
      show ((List.range L.filters).map _).length = L.filters
      rw [List.length_map, List.length_range]
    have hqlen : q < ((rowsOf cin dims.prod x.data).map
        (fun r => linearRow L.filters L.matBias r)).length := by
      rw [List.length_map]
      show q < ((List.range dims.prod).map _).length
      rw [List.length_map, List.length_range]
      exact hq
    unfold Tensor.entry
    rw [hgl, hdata, getD_flatten_uniform 0 _ L.filters q c hrowlen hqlen hc]
    rw [getD_map_lt (fun r => linearRow L.filters L.matBias r) _ [] []
        (by rw [List.length_map] at hqlen; exact hqlen)]
    have hrow : (rowsOf cin dims.prod x.data).getD q [] = (x.data.drop (q * cin)).take cin := by
      show ((List.range dims.prod).map _).getD q [] = _
      rw [getD_map_range _ _ hq]
    rw [hrow]
    show ((List.range L.filters).map
        (fun c' => ((x.data.drop (q * cin)).take cin).sum * (1 / 10)
          + L.matBias.getD c' 0)).getD c 0 = _
    rw [getD_map_range _ _ hc]

theorem C4_layer_forward_linear_witness :
    tensorW.shape = [1] ++ [2] ∧ tensorW.wf ∧
    ((layerW.forward Real.exp tensorW).2).shape = [1] ++ [2] :=
  ⟨rfl, by decide,
   (C4_layer_forward_linear layerW tensorW [1] 2 rfl (by decide) (by simp [layerW])).1⟩

/-- Field access of analyze_image: the reported list is the mapped top-3. -/
theorem analyze_image_all_predictions {α : Type*} [LinearOrderedField α] (e : α → α)
    (n : ℕ) (img : Tensor α) :
    (analyze_image e n img).all_predictions
      = (get_top_predictions e n img 3).map (fun p => (p.class_name, p.confidence)) := rfl

/-- Field access of analyze_image: the primary class is that of the first
top-3 record. -/
theorem analyze_image_primary_class {α : Type*} [LinearOrderedField α] (e : α → α)
    (n : ℕ) (img : Tensor α) :
    (analyze_image e n img).primary_class
      = ((get_top_predictions e n img 3).getD 0 ⟨"", 0⟩).class_name := rfl

/-- Field access of analyze_image: the primary confidence is that of the
first top-3 record. -/
theorem analyze_image_primary_confidence {α : Type*} [LinearOrderedField α] (e : α → α)
    (n : ℕ) (img : Tensor α) :
    (analyze_image e n img).primary_confidence
      = ((get_top_predictions e n img 3).getD 0 ⟨"", 0⟩).confidence := rfl

/-- C1 counterexample: with `top_k = 0` (which satisfies `top_k ≤
num_classes`) the Python slice `predictions[-0:]` keeps the whole vector, so
get_top_predictions returns 3 results on a 3-class model instead of the
claimed at most `top_k = 0`. -/
theorem C1_cex_topk_zero : ¬ ((get_top_predictions Real.exp 3 imgW 0).length ≤ 0) := by
  have hu := classProbVector_uniform 3 imgW
  have h : (get_top_predictions Real.exp 3 imgW 0).length
      = (topIndices (classProbVector Real.exp 3 imgW) 0).countP
          (fun i => decide (i < classesList.length)) := by
    simp only [get_top_predictions]
    exact length_filterMap_if _ _ _
  rw [h]
  unfold topIndices lastSlice
  rw [hu, npArgsort_replicate]
  decide

/-- C1 amended: for `1 ≤ top_k ≤ num_classes`, get_top_predictions selects
exactly `min top_k num_classes` indices, returns one record per selected
in-table index (so at most `top_k` records, exactly the selected count minus
the out-of-range skips), in non-increasing confidence order. -/
theorem C1_top_predictions_count_and_order (img : Tensor ℝ) (n k : ℕ)
    (hk1 : 1 ≤ k) (hkn : k ≤ n) :
    (get_top_predictions Real.exp n img k).length ≤ k ∧
    (topIndices (classProbVector Real.exp n img) k).length = min k n ∧
    (get_top_predictions Real.exp n img k).length
      = (topIndices (classProbVector Real.exp n img) k).countP
          (fun i => decide (i < classesList.length)) ∧
    List.Pairwise (fun p q : Prediction ℝ => q.confidence ≤ p.confidence)
      (get_top_predictions Real.exp n img k) := by
  have hu := classProbVector_uniform n img
  have hlen : (topIndices (classProbVector Real.exp n img) k).length = k := by
    rw [hu]
    exact topIndices_replicate_length n k _ hk1 hkn
  have hcount : (get_top_predictions Real.exp n img k).length
      = (topIndices (classProbVector Real.exp n img) k).countP
          (fun i => decide (i < classesList.length)) := by
    simp only [get_top_predictions]
    exact length_filterMap_if _ _ _
  have hconf : ∀ r ∈ get_top_predictions Real.exp n img k,
      r.confidence = (n : ℝ)⁻¹ := by
    intro r hr
    simp only [get_top_predictions] at hr
    obtain ⟨idx, hidx, hr2⟩ := List.mem_filterMap.mp hr
    rw [hu] at hidx
    by_cases hlt : idx < classesList.length
    · rw [if_pos hlt] at hr2
      have hr3 := Option.some_injective _ hr2
      rw [← hr3]
      show (classProbVector Real.exp n img).getD idx 0 = (n : ℝ)⁻¹
      rw [hu]
      exact getD_replicate_lt _ 0 (mem_topIndices_replicate _ hidx)
    · rw [if_neg hlt] at hr2
      exact absurd hr2 (by simp)
  refine ⟨?_, by rw [hlen]; omega, hcount, ?_⟩
  · rw [hcount]
    calc (topIndices (classProbVector Real.exp n img) k).countP
          (fun i => decide (i < classesList.length))
        ≤ (topIndices (classProbVector Real.exp n img) k).length :=
          List.countP_le_length _
      _ = k := hlen
  · apply List.pairwise_of_forall_mem_list
    intro p hp q hq
    rw [hconf p hp, hconf q hq]

theorem C1_top_predictions_count_and_order_witness :
    (1 ≤ 2) ∧ (2 ≤ 3) ∧ (get_top_predictions Real.exp 3 imgW2 2).length ≤ 2 :=
  ⟨by omega, by omega,
   (C1_top_predictions_count_and_order imgW2 3 2 (by omega) (by omega)).1⟩

/-- C2 counterexample: with `num_classes = 11 ≥ 3` the uniform tie makes the
stable argsort select indices 10, 9, 8; index 10 falls outside the 10-entry
class table and is silently skipped, so all_predictions has length 2, not 3. -/
theorem C2_cex_eleven_classes :
    ¬ ((analyze_image Real.exp 11 imgW2).all_predictions.length = 3) := by
  have hu := classProbVector_uniform 11 imgW2
  have htop : topIndices (classProbVector Real.exp 11 imgW2) 3 = [10, 9, 8] := by
    rw [hu]
    exact topIndices_replicate_three 11 _ (by omega)
  have h2 : (analyze_image Real.exp 11 imgW2).all_predictions.length = 2 := by
    rw [analyze_image_all_predictions, List.length_map]
    simp only [get_top_predictions]
    rw [length_filterMap_if, htop]
    decide
  omega

/-- C2 amended: for `3 ≤ num_classes ≤ 10` (so that every selected index is
inside the class table) analyze_image returns exactly 3 predictions and the
primary prediction is the class/confidence pair of all_predictions[0]. -/
theorem C2_analyze_image_top3 (img : Tensor ℝ) (n : ℕ) (h3 : 3 ≤ n) (h10 : n ≤ 10) :
    (analyze_image Real.exp n img).all_predictions.length = 3 ∧
    (analyze_image Real.exp n img).all_predictions.getD 0 ("", 0)
      = ((analyze_image Real.exp n img).primary_class,
         (analyze_image Real.exp n img).primary_confidence) := by
  have hu := classProbVector_uniform n img
  have htop : topIndices (classProbVector Real.exp n img) 3 = [n - 1, n - 2, n - 3] := by
    rw [hu]
    exact topIndices_replicate_three n _ h3
  have htp : (get_top_predictions Real.exp n img 3).length = 3 := by
    simp only [get_top_predictions]
    rw [length_filterMap_if, htop]
    have hall : ∀ a ∈ ([n - 1, n - 2, n - 3] : List ℕ),
        (fun i => decide (i < classesList.length)) a = true := by
      intro a ha
      simp only [List.mem_cons, List.not_mem_nil, or_false] at ha
      rw [decide_eq_true_eq, show classesList.length = 10 from rfl]
      rcases ha with rfl | rfl | rfl
      · omega
      · omega
      · omega
    rw [List.countP_eq_length.mpr hall]
    rfl
  refine ⟨?_, ?_⟩
  · rw [analyze_image_all_predictions, List.length_map]
    exact htp
  · rw [analyze_image_all_predictions, analyze_image_primary_class,
        analyze_image_primary_confidence]
    rw [getD_map_lt (fun p : Prediction ℝ => (p.class_name, p.confidence)) _ ("", 0)
        ⟨"", 0⟩ (by rw [htp]; omega)]

theorem C2_analyze_image_top3_witness :
    (3 ≤ 3) ∧ (3 ≤ 10) ∧ (analyze_image Real.exp 3 imgW).all_predictions.length = 3 :=
  ⟨by omega, by omega, (C2_analyze_image_top3 imgW 3 (by omega) (by omega)).1⟩
